import Mathlib

/-!
# Bento Planner: todo list, calendar and journal

A shallow embedding of the data and state logic of `src/App.jsx`
(component `AppContent`): the remote document store with its two collections
`todos` and `journal`, the local view state of the component, and the event
handlers `addTodo`, `toggleTodo`, `deleteTodo`, `editTodo`, `addJournalEntry`
together with the pure view functions `getTodosForSelectedDate`,
`getJournalEntry` and `tileClassName`.

Handlers are asynchronous in the source.  Here each handler is a function on
an explicit state that holds both the remote store and the local view state,
and it returns `none` when the handler throws before it finishes (a rejected
remote call or a `TypeError`), `some s` when it runs to completion.
-/

namespace BentoPlanner

/-! ## Data model -/

/-- A todo record: the fields written by `addTodo` plus the document id.  The
same shape is used for a document of the remote `todos` collection and for an
element of the local `todos` array (`{ id: doc.id, ...doc.data() }`). -/
structure Todo where
  id : String
  text : String
  completed : Bool
  date : String
  userId : String
  deriving DecidableEq, Repr

/-- A document of the remote `journal` collection. -/
structure JournalDoc where
  id : String
  userId : String
  date : String
  content : String
  deriving DecidableEq, Repr

/-- A calendar day, the part of a JavaScript `Date` that the pattern
`yyyy-MM-dd` reads. -/
structure Date where
  year : Nat
  month : Nat
  day : Nat
  deriving DecidableEq, Repr

/-- The remote document store with its two collections.  `writes` counts the
write requests (`addDoc`, `updateDoc`, `deleteDoc`) the store has accepted. -/
structure Store where
  todos : List Todo
  journal : List JournalDoc
  writes : Nat
  deriving DecidableEq, Repr

/-- The remote store together with the local view state of `AppContent`. -/
structure State where
  /-- the remote document store (`db`) -/
  remote : Store
  /-- `currentUser.uid` -/
  uid : String
  todos : List Todo
  todoInput : String
  editingTodoId : Option String
  date : Date
  /-- the object `journalEntries`, keyed by date-key -/
  journalEntries : List (String × String)
  journalInput : String
  deriving DecidableEq, Repr

/-! ## Strings -/

/-- The code points removed by `String.prototype.trim`: the ECMAScript
`WhiteSpace` and `LineTerminator` productions. -/
def isWhiteSpace (c : Char) : Bool :=
  let n := c.toNat
  n = 0x09 || n = 0x0A || n = 0x0B || n = 0x0C || n = 0x0D || n = 0x20 ||
  n = 0xA0 || n = 0x1680 || (0x2000 ≤ n && n ≤ 0x200A) || n = 0x2028 ||
  n = 0x2029 || n = 0x202F || n = 0x205F || n = 0x3000 || n = 0xFEFF

/-- `String.prototype.trim`: white space removed from both ends. -/
def trim (s : String) : String :=
  String.mk ((s.data.dropWhile isWhiteSpace).reverse.dropWhile isWhiteSpace).reverse

/-- Zero-padding of a number to at least `width` decimal digits. -/
def padZero (width n : Nat) : String :=
  let digits := (Nat.toDigits 10 n)
  String.mk (List.replicate (width - digits.length) '0' ++ digits)

/-- Modelled from the spec: the day-key format of `date-fns` `format` with the
pattern `yyyy-MM-dd` (year-month-day, zero-padded); the library is not part of
the repository.  Every theorem below takes the formatter as a parameter; this
one is used to evaluate the handlers on concrete inputs. -/
def formatDay (d : Date) : String :=
  padZero 4 d.year ++ "-" ++ padZero 2 d.month ++ "-" ++ padZero 2 d.day

/-! ## The remote store

A collection is a list of documents in the order in which a query returns
them.  Document ids are assigned by the store and identify a document within
its collection. -/

/-- `getDocs(query(collection, where ...))`: the documents that satisfy the
conditions of the query. -/
def getDocs {α : Type} (docs : List α) (cond : α → Bool) : List α :=
  docs.filter cond

/-- `addDoc(collection, data)`: the store keeps `data` under the id it
assigns (already part of `doc` here). -/
def addDoc {α : Type} (docs : List α) (doc : α) : List α :=
  docs ++ [doc]

/-- `updateDoc(doc(db, collection, id), fields)`: `set` overwrites the given
fields of the document `id`; the request is rejected when the collection has
no such document. -/
def updateDoc {α : Type} (key : α → String) (docs : List α) (id : String)
    (set : α → α) : Option (List α) :=
  if docs.any (fun d => key d = id) then
    some (docs.map (fun d => if key d = id then set d else d))
  else
    none

/-- `deleteDoc(doc(db, collection, id))`: succeeds whether or not the
document exists. -/
def deleteDoc {α : Type} (key : α → String) (docs : List α) (id : String) : List α :=
  docs.filter (fun d => key d ≠ id)

/-! ## The local journal object -/

/-- Property read `obj[key]` on the object `journalEntries`; `none` stands for
`undefined`. -/
def getProp (obj : List (String × String)) (key : String) : Option String :=
  match obj.find? (fun p => p.1 = key) with
  | some p => some p.2
  | none => none

/-- Property write `obj[key] = value`, also the effect of the object literal
`{ ...obj, [key]: value }`: an existing key keeps its place. -/
def setProp (obj : List (String × String)) (key value : String) : List (String × String) :=
  if obj.any (fun p => p.1 = key) then
    obj.map (fun p => if p.1 = key then (key, value) else p)
  else
    obj ++ [(key, value)]

/-- JavaScript truthiness of a value that is a string or `undefined`: only
`undefined` and the empty string are falsy. -/
def truthy (v : Option String) : Bool :=
  match v with
  | some c => c ≠ ""
  | none => false

/-! ## Loading (the two mount effects) -/

/-- `loadTodos` (App.jsx 38-49). -/
def loadTodos (s : State) : State :=
  let querySnapshot := getDocs s.remote.todos (fun d => d.userId = s.uid)
  { s with todos := querySnapshot }

/-- `loadJournalEntries` (App.jsx 57-69). -/
def loadJournalEntries (s : State) : State :=
  let querySnapshot := getDocs s.remote.journal (fun d => d.userId = s.uid)
  let entries := querySnapshot.foldl (fun entries data => setProp entries data.date data.content) []
  { s with journalEntries := entries }

/-! ## Todo handlers -/

/-- `addTodo` (App.jsx 85-109).  `now` is the value of `new Date()` and
`newId` the id that the store assigns to a created document. -/
def addTodo (format : Date → String) (now : Date) (newId : String) (s : State) :
    Option State :=
  if trim s.todoInput = "" then some s
  else
    match s.editingTodoId with
    | some editingTodoId =>
      match updateDoc Todo.id s.remote.todos editingTodoId
          (fun d => { d with text := s.todoInput }) with
      | none => none
      | some docs =>
        some { s with
          remote := { s.remote with todos := docs, writes := s.remote.writes + 1 }
          todos := s.todos.map (fun todo =>
            if todo.id = editingTodoId then { todo with text := s.todoInput } else todo)
          editingTodoId := none
          todoInput := "" }
    | none =>
      let newTodo : Todo :=
        { id := newId, text := s.todoInput, completed := false,
          date := format now, userId := s.uid }
      some { s with
        remote := { s.remote with
          todos := addDoc s.remote.todos newTodo, writes := s.remote.writes + 1 }
        todos := s.todos ++ [newTodo]
        todoInput := "" }

/-- `toggleTodo` (App.jsx 112-119).  When no local todo has the id, `todo` is
`undefined` and reading `todo.completed` throws before anything is written. -/
def toggleTodo (id : String) (s : State) : Option State :=
  match s.todos.find? (fun t => t.id = id) with
  | none => none
  | some todo =>
    match updateDoc Todo.id s.remote.todos id
        (fun d => { d with completed := !todo.completed }) with
    | none => none
    | some docs =>
      some { s with
        remote := { s.remote with todos := docs, writes := s.remote.writes + 1 }
        todos := s.todos.map (fun todo =>
          if todo.id = id then { todo with completed := !todo.completed } else todo) }

/-- `deleteTodo` (App.jsx 122-125). -/
def deleteTodo (id : String) (s : State) : Option State :=
  some { s with
    remote := { s.remote with
      todos := deleteDoc Todo.id s.remote.todos id, writes := s.remote.writes + 1 }
    todos := s.todos.filter (fun todo => todo.id ≠ id) }

/-- `editTodo` (App.jsx 128-131). -/
def editTodo (todo : Todo) (s : State) : State :=
  { s with todoInput := todo.text, editingTodoId := some todo.id }

/-- `onChange` of the todo input: `setTodoInput(e.target.value)`. -/
def setTodoInput (value : String) (s : State) : State :=
  { s with todoInput := value }

/-! ## Journal handlers -/

/-- `addJournalEntry` (App.jsx 134-163).  `newId` is the id that the store
assigns if a document is created. -/
def addJournalEntry (format : Date → String) (newId : String) (s : State) :
    Option State :=
  if trim s.journalInput = "" then some s
  else
    let dateKey := format s.date
    let querySnapshot :=
      getDocs s.remote.journal (fun d => d.userId = s.uid ∧ d.date = dateKey)
    let written : Option (List JournalDoc) :=
      match querySnapshot with
      | doc0 :: _ =>
        updateDoc JournalDoc.id s.remote.journal doc0.id
          (fun d => { d with content := s.journalInput })
      | [] =>
        some (addDoc s.remote.journal
          { id := newId, userId := s.uid, date := dateKey, content := s.journalInput })
    match written with
    | none => none
    | some docs =>
      some { s with
        remote := { s.remote with journal := docs, writes := s.remote.writes + 1 }
        journalEntries := setProp s.journalEntries dateKey s.journalInput
        journalInput := "" }

/-- `onChange` of the journal text area: `setJournalInput(e.target.value)`. -/
def setJournalInput (value : String) (s : State) : State :=
  { s with journalInput := value }

/-- `onChange` of the calendar: `setDate`. -/
def setDate (date : Date) (s : State) : State :=
  { s with date := date }

/-! ## View functions -/

/-- `getTodosForSelectedDate` (App.jsx 172-175). -/
def getTodosForSelectedDate (format : Date → String) (s : State) : List Todo :=
  let dateKey := format s.date
  s.todos.filter (fun todo => todo.date = dateKey)

/-- `getJournalEntry` (App.jsx 166-169). -/
def getJournalEntry (format : Date → String) (s : State) : String :=
  let dateKey := format s.date
  let v := getProp s.journalEntries dateKey
  if truthy v then v.getD "" else ""

/-- `tileClassName` (App.jsx 300-309), called by the calendar with the date of
each day cell. -/
def tileClassName (format : Date → String) (s : State) (date : Date) : String :=
  let dateStr := format date
  let hasJournal := truthy (getProp s.journalEntries dateStr)
  let hasTodos := s.todos.any (fun todo => todo.date = dateStr)
  if hasJournal && hasTodos then "has-journal has-todos"
  else if hasJournal then "has-journal"
  else if hasTodos then "has-todos"
  else ""

/-- The state right after mount for user `uid` on day `today`, before the load
effects have run. -/
def initialState (remote : Store) (uid : String) (today : Date) : State :=
  { remote := remote, uid := uid, todos := [], todoInput := "", editingTodoId := none,
    date := today, journalEntries := [], journalInput := "" }

/-! ## Local and remote todos -/

/-- The mutating todo operations of the component, with the values each one
receives from outside (`new Date()`, the store-assigned id, the clicked id). -/
inductive TodoAction where
  | add (now : Date) (newId : String)
  | toggle (id : String)
  | delete (id : String)
  deriving DecidableEq, Repr

/-- One click: the handler that belongs to the action, run to the end. -/
def runTodoAction (format : Date → String) (a : TodoAction) (s : State) : Option State :=
  match a with
  | .add now newId => addTodo format now newId s
  | .toggle id => toggleTodo id s
  | .delete id => deleteTodo id s

/-- The local todo collection holds exactly the remote `todos` records of the
current owner: the same records, each as often, in any order. -/
def todosInSync (s : State) : Prop :=
  s.todos.Perm (s.remote.todos.filter (fun d => d.userId = s.uid))

instance (s : State) : Decidable (todosInSync s) := by
  unfold todosInSync
  infer_instance

/-- Document ids identify the documents of the remote `todos` collection. -/
def todoIdsUnique (r : Store) : Prop :=
  (r.todos.map Todo.id).Nodup

instance (r : Store) : Decidable (todoIdsUnique r) := by
  unfold todoIdsUnique
  infer_instance

/-! ## Journal records of an owner -/

/-- The number of remote journal records of owner `uid`. -/
def journalCount (r : Store) (uid : String) : Nat :=
  (getDocs r.journal (fun d => d.userId = uid)).length

/-- No two records of the remote `journal` collection share the same
(owner id, date-key) pair. -/
def journalKeysUnique (r : Store) : Prop :=
  r.journal.Pairwise (fun a b => ¬ (a.userId = b.userId ∧ a.date = b.date))

instance (r : Store) : Decidable (journalKeysUnique r) := by
  unfold journalKeysUnique
  infer_instance

/-! ## Calendar decoration -/

/-- The class string `className` contains the text `cls`. -/
def containsClass (className cls : String) : Prop :=
  cls.data <:+: className.data

instance (className cls : String) : Decidable (containsClass className cls) := by
  unfold containsClass
  infer_instance

/-- The object `journalEntries` has the key `key`. -/
def hasKey (obj : List (String × String)) (key : String) : Prop :=
  ∃ p ∈ obj, p.1 = key

instance (obj : List (String × String)) (key : String) : Decidable (hasKey obj key) := by
  unfold hasKey
  infer_instance

/-! ## Example states -/

/-- Owner `u1` on 2024-01-01 with no records at all. -/
def emptyState : State :=
  initialState { todos := [], journal := [], writes := 0 } "u1" ⟨2024, 1, 1⟩

/-- A store with two todos of `u1` and one of `u2`, and one journal entry. -/
def sampleStore : Store :=
  { todos :=
      [ ⟨"a", "Buy milk", false, "2024-01-01", "u1"⟩,
        ⟨"b", "Call Bob", true, "2024-01-02", "u1"⟩,
        ⟨"c", "Pay rent", false, "2024-01-01", "u2"⟩ ]
    journal := [ ⟨"j1", "u1", "2024-01-01", "Good day"⟩ ]
    writes := 0 }

/-- Owner `u1` on 2024-01-01 after both load effects on `sampleStore`. -/
def sampleState : State :=
  loadJournalEntries (loadTodos (initialState sampleStore "u1" ⟨2024, 1, 1⟩))

/-- A store in which owner `u1` has a journal record with empty content for
2024-01-01 and no todos. -/
def emptyContentStore : Store :=
  { todos := [], journal := [ ⟨"j1", "u1", "2024-01-01", ""⟩ ], writes := 0 }

/-- Owner `u1` after both load effects on `emptyContentStore`. -/
def emptyContentState : State :=
  loadJournalEntries (loadTodos (initialState emptyContentStore "u1" ⟨2024, 1, 1⟩))

/-! ## Strings: blank input -/

theorem trim_eq_empty_iff (t : String) :
    trim t = "" ↔ ∀ c ∈ t.data, isWhiteSpace c = true := by
  have hmk : ∀ l : List Char, String.mk l = "" ↔ l = [] := by
    intro l
    constructor
    · intro h
      have := congrArg String.data h
      simpa using this
    · rintro rfl
      rfl
  unfold trim
  rw [hmk, List.reverse_eq_nil_iff, List.dropWhile_eq_nil_iff]
  constructor
  · intro h
    have h2 : t.data.dropWhile isWhiteSpace = [] := by
      rcases hd : t.data.dropWhile isWhiteSpace with _ | ⟨a, l⟩
      · rfl
      · exfalso
        have ha : isWhiteSpace a = true := h a (by rw [hd]; simp)
        have hne : t.data.dropWhile isWhiteSpace ≠ [] := by rw [hd]; simp
        have := List.head_dropWhile_not isWhiteSpace t.data hne
        simp [hd, ha] at this
    exact List.dropWhile_eq_nil_iff.mp h2
  · intro h c hc
    have h2 : t.data.dropWhile isWhiteSpace = [] := List.dropWhile_eq_nil_iff.mpr h
    rw [h2] at hc
    simp at hc

theorem trim_ne_empty_of_exists (t : String)
    (h : ∃ c ∈ t.data, isWhiteSpace c = false) : trim t ≠ "" := by
  intro ht
  obtain ⟨c, hc, hw⟩ := h
  have := (trim_eq_empty_iff t).mp ht c hc
  rw [this] at hw
  exact Bool.noConfusion hw

/-! ## C1: the todos of the selected date -/

/-- C1: `getTodosForSelectedDate` returns exactly the local todos whose date
field equals the date-key of the selected date: a todo is in the result iff it
is in the collection and its date is the key, the result is a sublist of the
collection (original order, nothing from outside), and every such todo occurs
in the result as often as in the collection. -/
theorem getTodosForSelectedDate_exact (format : Date → String) (s : State) :
    (∀ T : Todo, T ∈ getTodosForSelectedDate format s ↔
        (T ∈ s.todos ∧ T.date = format s.date)) ∧
    (getTodosForSelectedDate format s).Sublist s.todos ∧
    (∀ T : Todo, T.date = format s.date →
        (getTodosForSelectedDate format s).count T = s.todos.count T) := by
  refine ⟨?_, ?_, ?_⟩
  · intro T
    simp [getTodosForSelectedDate, List.mem_filter]
  · exact List.filter_sublist _
  · intro T hT
    simp only [getTodosForSelectedDate]
    rw [List.count_filter]
    simpa using hT

/-! ## C10: blank input -/

/-- C10: when the todo input is empty or consists only of white space,
`addTodo` completes and returns the state it was given, whatever the edit
target is: the remote store (its documents and its count of accepted writes),
the local todos, the input text and the edit target are all unchanged. -/
theorem addTodo_blank_noop (format : Date → String) (now : Date) (newId : String)
    (s : State) (hblank : ∀ c ∈ s.todoInput.data, isWhiteSpace c = true) :
    addTodo format now newId s = some s := by
  have h := (trim_eq_empty_iff s.todoInput).mpr hblank
  simp [addTodo, h]

/-- Witness for C10: a white-space input with an edit target set. -/
theorem addTodo_blank_noop_witness :
    addTodo formatDay ⟨2024, 1, 1⟩ "n1"
        (setTodoInput " \t " (editTodo ⟨"a", "Buy milk", false, "2024-01-01", "u1"⟩ sampleState)) =
      some (setTodoInput " \t " (editTodo ⟨"a", "Buy milk", false, "2024-01-01", "u1"⟩ sampleState)) :=
  addTodo_blank_noop formatDay ⟨2024, 1, 1⟩ "n1" _ (by decide)

/-! ## C6: creating a todo -/

/-- C6: with no edit target and a non-blank input `t`, `addTodo` completes
and the local collection becomes the old one followed by exactly one new todo
with the store-assigned id, text `t`, `completed = false`, the date-key of
today and the current user as owner; the same record is what the store
receives.  When the old collection is empty and the selected date has the
date-key of today, `getTodosForSelectedDate` then returns exactly that one
item, whose `completed` is `false`. -/
theorem addTodo_create (format : Date → String) (now : Date) (newId : String)
    (s : State) (hedit : s.editingTodoId = none)
    (hinput : ∃ c ∈ s.todoInput.data, isWhiteSpace c = false) :
    ∃ s' : State, addTodo format now newId s = some s' ∧
      s'.todos = s.todos ++
        [{ id := newId, text := s.todoInput, completed := false,
           date := format now, userId := s.uid }] ∧
      s'.remote.todos = s.remote.todos ++
        [{ id := newId, text := s.todoInput, completed := false,
           date := format now, userId := s.uid }] ∧
      s'.remote.writes = s.remote.writes + 1 ∧
      (s.todos = [] → format s.date = format now →
        getTodosForSelectedDate format s' =
          [{ id := newId, text := s.todoInput, completed := false,
             date := format now, userId := s.uid }] ∧
        ∀ T ∈ getTodosForSelectedDate format s', T.completed = false) := by
  have h := trim_ne_empty_of_exists s.todoInput hinput
  refine ⟨_, by simp only [addTodo, h, hedit, if_false]; rfl, rfl, rfl, rfl, ?_⟩
  intro hnil hday
  refine ⟨by simp [getTodosForSelectedDate, hnil, hday], ?_⟩
  intro T hT
  simp [getTodosForSelectedDate, hnil, hday] at hT
  rw [hT]

/-- Witness for C6: owner `u1` has no records and adds "Buy milk" on
2024-01-01. -/
theorem addTodo_create_witness :
    ∃ s' : State,
      addTodo formatDay ⟨2024, 1, 1⟩ "t1" (setTodoInput "Buy milk" emptyState) = some s' ∧
      s'.todos = [] ++ [⟨"t1", "Buy milk", false, "2024-01-01", "u1"⟩] ∧
      s'.remote.todos = [] ++ [⟨"t1", "Buy milk", false, "2024-01-01", "u1"⟩] ∧
      s'.remote.writes = 0 + 1 ∧
      (([] : List Todo) = [] → "2024-01-01" = "2024-01-01" →
        getTodosForSelectedDate formatDay s' =
          [⟨"t1", "Buy milk", false, "2024-01-01", "u1"⟩] ∧
        ∀ T ∈ getTodosForSelectedDate formatDay s', T.completed = false) :=
  addTodo_create formatDay ⟨2024, 1, 1⟩ "t1" (setTodoInput "Buy milk" emptyState) rfl
    (by decide)

/-! ## C7: editing a todo -/

/-- C7: with edit target `e` and a non-blank input `t`, every completed
`addTodo` leaves a local collection of the same length in which position by
position the todo keeps its id, `completed`, date and owner, has text `t` when
its id is `e`, and is unchanged when its id is not `e`; the edit target is
cleared and the input is empty afterwards.  The handler completes exactly when
the remote collection holds a document with id `e`. -/
theorem addTodo_edit (format : Date → String) (now : Date) (newId : String)
    (s : State) (e : String) (hedit : s.editingTodoId = some e)
    (hinput : ∃ c ∈ s.todoInput.data, isWhiteSpace c = false) :
    (∀ s' : State, addTodo format now newId s = some s' →
      s'.todos.length = s.todos.length ∧
      (∀ (i : Nat) (a : Todo), s.todos[i]? = some a →
        ∃ b : Todo, s'.todos[i]? = some b ∧
          b.id = a.id ∧ b.completed = a.completed ∧ b.date = a.date ∧
          b.userId = a.userId ∧
          (a.id = e → b.text = s.todoInput) ∧ (a.id ≠ e → b = a)) ∧
      s'.editingTodoId = none ∧ s'.todoInput = "") ∧
    ((addTodo format now newId s).isSome ↔ ∃ d ∈ s.remote.todos, d.id = e) := by
  have h := trim_ne_empty_of_exists s.todoInput hinput
  constructor
  · intro s' hs'
    simp only [addTodo, h, hedit, if_false] at hs'
    cases hu : updateDoc Todo.id s.remote.todos e
        (fun d => { d with text := s.todoInput }) with
    | none => rw [hu] at hs'; exact Option.noConfusion hs'
    | some docs =>
      rw [hu] at hs'
      simp only [Option.some.injEq] at hs'
      subst hs'
      refine ⟨by simp, ?_, rfl, rfl⟩
      intro i a hia
      refine ⟨if a.id = e then { a with text := s.todoInput } else a, ?_, ?_⟩
      · simp [List.getElem?_map, hia]
      · by_cases hae : a.id = e <;> simp [hae]
  · have hany : (s.remote.todos.any fun d => decide (d.id = e)) = true ↔
        ∃ d ∈ s.remote.todos, d.id = e := by simp
    rw [← hany]
    simp only [addTodo, h, hedit, if_false, updateDoc]
    cases hx : (s.remote.todos.any fun d => decide (d.id = e)) <;> simp

/-- Witness for C7: todo `a` of `sampleState` is edited to "Buy oat milk". -/
theorem addTodo_edit_witness :
    (∀ s' : State,
      addTodo formatDay ⟨2024, 1, 3⟩ "n1"
        (setTodoInput "Buy oat milk"
          (editTodo ⟨"a", "Buy milk", false, "2024-01-01", "u1"⟩ sampleState)) = some s' →
      s'.todos.length = 2 ∧
      (∀ (i : Nat) (a : Todo), sampleState.todos[i]? = some a →
        ∃ b : Todo, s'.todos[i]? = some b ∧
          b.id = a.id ∧ b.completed = a.completed ∧ b.date = a.date ∧
          b.userId = a.userId ∧
          (a.id = "a" → b.text = "Buy oat milk") ∧ (a.id ≠ "a" → b = a)) ∧
      s'.editingTodoId = none ∧ s'.todoInput = "") ∧
    ((addTodo formatDay ⟨2024, 1, 3⟩ "n1"
        (setTodoInput "Buy oat milk"
          (editTodo ⟨"a", "Buy milk", false, "2024-01-01", "u1"⟩ sampleState))).isSome ↔
      ∃ d ∈ sampleStore.todos, d.id = "a") :=
  addTodo_edit formatDay ⟨2024, 1, 3⟩ "n1"
    (setTodoInput "Buy oat milk"
      (editTodo ⟨"a", "Buy milk", false, "2024-01-01", "u1"⟩ sampleState))
    "a" rfl (by decide)

/-! ## C9: deleting a todo -/

/-- C9: `deleteTodo i` completes; afterwards no local todo has id `i`, so for
every selected date `getTodosForSelectedDate` contains no todo with id `i`;
the new local collection is a sublist of the old one (same relative order,
records unchanged) and every todo with another id occurs in it as often as
before. -/
theorem deleteTodo_removes (s : State) (i : String) :
    ∃ s' : State, deleteTodo i s = some s' ∧
      (∀ T ∈ s'.todos, T.id ≠ i) ∧
      (∀ (format : Date → String) (date : Date),
        ∀ T ∈ getTodosForSelectedDate format (setDate date s'), T.id ≠ i) ∧
      s'.todos.Sublist s.todos ∧
      (∀ T : Todo, T.id ≠ i → s'.todos.count T = s.todos.count T) ∧
      s'.remote.todos = deleteDoc Todo.id s.remote.todos i := by
  refine ⟨_, rfl, ?_, ?_, ?_, ?_, rfl⟩
  · intro T hT
    simp only [List.mem_filter] at hT
    simpa using hT.2
  · intro format date T hT
    simp only [getTodosForSelectedDate, setDate, List.mem_filter] at hT
    simpa using hT.1.2
  · exact List.filter_sublist _
  · intro T hT
    show (s.todos.filter _).count T = _
    rw [List.count_filter]
    simpa using hT

/-! ## C8: toggling twice -/

/-- Applying the local update of `toggleTodo i` twice gives the array back. -/
theorem flip_flip (i : String) (l : List Todo) :
    (l.map (fun todo : Todo =>
        if todo.id = i then { todo with completed := !todo.completed } else todo)).map
      (fun todo : Todo =>
        if todo.id = i then { todo with completed := !todo.completed } else todo) = l := by
  rw [List.map_map]
  conv_rhs => rw [← List.map_id l]
  apply List.map_congr_left
  intro a _
  by_cases h : a.id = i
  · subst h
    simp
  · simp [h]

theorem find_after_flip (i : String) (l : List Todo) :
    (l.map (fun todo : Todo =>
        if todo.id = i then { todo with completed := !todo.completed } else todo)).find?
      (fun t => t.id = i) =
    (l.find? (fun t => t.id = i)).map
      (fun todo : Todo => { todo with completed := !todo.completed }) := by
  induction l with
  | nil => rfl
  | cons a l ih =>
    by_cases h : a.id = i
    · simp [List.find?, h]
    · simp only [List.map_cons, h, if_false, List.find?, decide_False]
      exact ih

theorem updateDoc_eq_some {α : Type} (key : α → String) (docs : List α) (id : String)
    (set : α → α) (out : List α) (h : updateDoc key docs id set = some out) :
    out = docs.map (fun d => if key d = id then set d else d) ∧
      ∃ d ∈ docs, key d = id := by
  unfold updateDoc at h
  by_cases hx : (docs.any fun d => decide (key d = id)) = true
  · rw [if_pos hx] at h
    refine ⟨(Option.some.inj h).symm, ?_⟩
    simpa using hx
  · rw [if_neg hx] at h
    exact Option.noConfusion h

theorem updateDoc_of_mem {α : Type} (key : α → String) (docs : List α) (id : String)
    (set : α → α) (h : ∃ d ∈ docs, key d = id) :
    updateDoc key docs id set = some (docs.map (fun d => if key d = id then set d else d)) := by
  unfold updateDoc
  have hx : (docs.any fun d => decide (key d = id)) = true := by simpa using h
  rw [if_pos hx]

theorem toggleTodo_eq_some (i : String) (s s1 : State) (h : toggleTodo i s = some s1) :
    ∃ t0 : Todo, s.todos.find? (fun t => t.id = i) = some t0 ∧
      (∃ d ∈ s.remote.todos, d.id = i) ∧
      s1 = { s with
        remote := { s.remote with
          todos := s.remote.todos.map (fun d =>
            if d.id = i then { d with completed := !t0.completed } else d)
          writes := s.remote.writes + 1 }
        todos := s.todos.map (fun todo =>
          if todo.id = i then { todo with completed := !todo.completed } else todo) } := by
  unfold toggleTodo at h
  cases hf : s.todos.find? (fun t => t.id = i) with
  | none => rw [hf] at h; exact Option.noConfusion h
  | some t0 =>
    rw [hf] at h
    simp only at h
    cases hu : updateDoc Todo.id s.remote.todos i
        (fun d => { d with completed := !t0.completed }) with
    | none => rw [hu] at h; exact Option.noConfusion h
    | some docs =>
      rw [hu] at h
      obtain ⟨hdocs, hex⟩ := updateDoc_eq_some _ _ _ _ _ hu
      refine ⟨t0, rfl, hex, ?_⟩
      rw [← Option.some.inj h, hdocs]

theorem toggleTodo_completes (i : String) (s : State)
    (hmem : ∃ T ∈ s.todos, T.id = i) (hex : ∃ d ∈ s.remote.todos, d.id = i) :
    ∃ s1 : State, toggleTodo i s = some s1 := by
  obtain ⟨T, hT, hTi⟩ := hmem
  cases hf0 : s.todos.find? (fun t => t.id = i) with
  | none =>
    have := List.find?_eq_none.mp hf0 T hT
    simp [hTi] at this
  | some t0 =>
    unfold toggleTodo
    rw [hf0]
    simp only
    rw [updateDoc_of_mem _ _ _ _ hex]
    exact ⟨_, rfl⟩

/-- C8: for a local collection that contains a todo with id `i`, two
`toggleTodo i` in succession restore the local collection exactly (every flag,
every other field, every other todo).  The first call writes the negation of
the flag of the local todo `i` to the remote record and the second call writes
the original flag, touching no other remote field or record, so a remote
record that carried the local flag is restored as well.  Both calls complete
when the remote collection holds a document with id `i`. -/
theorem toggleTodo_twice (s : State) (i : String) (hmem : ∃ T ∈ s.todos, T.id = i) :
    (∀ s1 s2 : State, toggleTodo i s = some s1 → toggleTodo i s1 = some s2 →
      s2.todos = s.todos ∧
      ∃ t0 : Todo, s.todos.find? (fun t => t.id = i) = some t0 ∧
        s1.remote.todos = s.remote.todos.map (fun d =>
          if d.id = i then { d with completed := !t0.completed } else d) ∧
        s2.remote.todos = s.remote.todos.map (fun d =>
          if d.id = i then { d with completed := t0.completed } else d) ∧
        ((∀ d ∈ s.remote.todos, d.id = i → d.completed = t0.completed) →
          s2.remote.todos = s.remote.todos)) ∧
    ((∃ d ∈ s.remote.todos, d.id = i) →
      ∃ s1 s2 : State, toggleTodo i s = some s1 ∧ toggleTodo i s1 = some s2) := by
  constructor
  · intro s1 s2 h1 h2
    obtain ⟨t0, hf0, _, rfl⟩ := toggleTodo_eq_some i s s1 h1
    obtain ⟨t1, hf1, _, rfl⟩ := toggleTodo_eq_some i _ s2 h2
    simp only at hf1
    rw [find_after_flip, hf0] at hf1
    have ht1 : t1.completed = !t0.completed := by
      rw [← Option.some.inj hf1]
    have hremote2 : (s.remote.todos.map (fun d : Todo =>
          if d.id = i then { d with completed := !t0.completed } else d)).map
        (fun d : Todo => if d.id = i then { d with completed := !t1.completed } else d) =
        s.remote.todos.map (fun d =>
          if d.id = i then { d with completed := t0.completed } else d) := by
      rw [List.map_map]
      apply List.map_congr_left
      intro a _
      by_cases h : a.id = i <;> simp [h, ht1]
    refine ⟨flip_flip i s.todos, t0, hf0, rfl, hremote2, ?_⟩
    intro hagree
    show List.map _ (List.map _ s.remote.todos) = s.remote.todos
    rw [hremote2]
    conv_rhs => rw [← List.map_id s.remote.todos]
    apply List.map_congr_left
    intro a ha
    by_cases h : a.id = i
    · have hc := hagree a ha h
      subst h
      simp only [if_true, id]
      rw [← hc]
    · simp [h]
  · intro hex
    obtain ⟨s1, h1⟩ := toggleTodo_completes i s hmem hex
    obtain ⟨t0, _, _, hs1⟩ := toggleTodo_eq_some i s s1 h1
    have hmem1 : ∃ T ∈ s1.todos, T.id = i := by
      obtain ⟨T, hT, hTi⟩ := hmem
      refine ⟨if T.id = i then { T with completed := !T.completed } else T, ?_, ?_⟩
      · rw [hs1]
        exact List.mem_map.mpr ⟨T, hT, rfl⟩
      · simp [hTi]
    have hex1 : ∃ d ∈ s1.remote.todos, d.id = i := by
      obtain ⟨d, hd, hdi⟩ := hex
      refine ⟨if d.id = i then { d with completed := !t0.completed } else d, ?_, ?_⟩
      · rw [hs1]
        exact List.mem_map.mpr ⟨d, hd, rfl⟩
      · simp [hdi]
    obtain ⟨s2, h2⟩ := toggleTodo_completes i s1 hmem1 hex1
    exact ⟨s1, s2, h1, h2⟩

/-- Witness for C8: todo `a` of `sampleState` toggled twice. -/
theorem toggleTodo_twice_witness :
    (∀ s1 s2 : State, toggleTodo "a" sampleState = some s1 → toggleTodo "a" s1 = some s2 →
      s2.todos = sampleState.todos ∧
      ∃ t0 : Todo, sampleState.todos.find? (fun t => t.id = "a") = some t0 ∧
        s1.remote.todos = sampleState.remote.todos.map (fun d =>
          if d.id = "a" then { d with completed := !t0.completed } else d) ∧
        s2.remote.todos = sampleState.remote.todos.map (fun d =>
          if d.id = "a" then { d with completed := t0.completed } else d) ∧
        ((∀ d ∈ sampleState.remote.todos, d.id = "a" → d.completed = t0.completed) →
          s2.remote.todos = sampleState.remote.todos)) ∧
    ((∃ d ∈ sampleState.remote.todos, d.id = "a") →
      ∃ s1 s2 : State, toggleTodo "a" sampleState = some s1 ∧ toggleTodo "a" s1 = some s2) :=
  toggleTodo_twice sampleState "a" (by decide)

/-! ## C4: local and remote todos stay in sync -/

theorem filter_owner_map (uid : String) (f : Todo → Todo) (l : List Todo)
    (hf : ∀ d : Todo, (f d).userId = d.userId) :
    (l.map f).filter (fun d => d.userId = uid) =
      (l.filter (fun d => d.userId = uid)).map f := by
  induction l with
  | nil => rfl
  | cons a l ih =>
    by_cases h : a.userId = uid
    · simp only [List.map_cons, List.filter_cons, hf, h, decide_True, if_true, ih]
    · simp only [List.map_cons, List.filter_cons, hf, h, decide_False, ih]
      simp

theorem sync_of_update (s : State) (f : Todo → Todo) (w : Nat)
    (hf : ∀ d : Todo, (f d).userId = d.userId) (hsync : todosInSync s) :
    todosInSync { s with
      remote := { s.remote with todos := s.remote.todos.map f, writes := w }
      todos := s.todos.map f } := by
  unfold todosInSync at *
  simp only
  rw [filter_owner_map s.uid f _ hf]
  exact hsync.map f

theorem local_ids_unique (s : State) (hids : todoIdsUnique s.remote)
    (hsync : todosInSync s) : (s.todos.map Todo.id).Nodup := by
  unfold todosInSync at hsync
  unfold todoIdsUnique at hids
  have h1 : ((s.remote.todos.filter (fun d => d.userId = s.uid)).map Todo.id).Nodup :=
    List.Nodup.sublist ((List.filter_sublist _).map Todo.id) hids
  exact (hsync.map Todo.id).nodup_iff.mpr h1

theorem map_id_of_update (l : List Todo) (f : Todo → Todo)
    (hf : ∀ d : Todo, (f d).id = d.id) : (l.map f).map Todo.id = l.map Todo.id := by
  rw [List.map_map]
  apply List.map_congr_left
  intro d _
  exact hf d

/-- Unique remote ids are kept by every completed todo operation, provided the
id that the store assigns to a created document is not in use. -/
theorem todoIdsUnique_preserved (format : Date → String) (a : TodoAction) (s s' : State)
    (hids : todoIdsUnique s.remote)
    (hfresh : ∀ now newId, a = .add now newId → ∀ d ∈ s.remote.todos, d.id ≠ newId)
    (hrun : runTodoAction format a s = some s') :
    todoIdsUnique s'.remote := by
  unfold todoIdsUnique at *
  cases a with
  | add now newId =>
    simp only [runTodoAction, addTodo] at hrun
    by_cases hb : trim s.todoInput = ""
    · rw [if_pos hb] at hrun
      rw [← Option.some.inj hrun]
      exact hids
    · rw [if_neg hb] at hrun
      cases he : s.editingTodoId with
      | none =>
        rw [he] at hrun
        simp only at hrun
        rw [← Option.some.inj hrun]
        simp only [addDoc, List.map_append, List.map_cons, List.map_nil]
        rw [List.nodup_append]
        refine ⟨hids, List.nodup_singleton _, ?_⟩
        intro x hx hx'
        rw [List.mem_singleton] at hx'
        obtain ⟨d, hd, hdx⟩ := List.mem_map.mp hx
        exact hfresh now newId rfl d hd (hdx.trans hx')
      | some e =>
        rw [he] at hrun
        simp only at hrun
        cases hu : updateDoc Todo.id s.remote.todos e
            (fun d => { d with text := s.todoInput }) with
        | none => rw [hu] at hrun; exact Option.noConfusion hrun
        | some docs =>
          rw [hu] at hrun
          obtain ⟨hdocs, _⟩ := updateDoc_eq_some _ _ _ _ _ hu
          rw [← Option.some.inj hrun, hdocs]
          simp only
          rw [map_id_of_update]
          · exact hids
          · intro d
            by_cases h : d.id = e <;> simp [h]
  | toggle i =>
    simp only [runTodoAction] at hrun
    obtain ⟨t0, _, _, rfl⟩ := toggleTodo_eq_some i s s' hrun
    simp only
    rw [map_id_of_update]
    · exact hids
    · intro d
      by_cases h : d.id = i <;> simp [h]
  | delete i =>
    simp only [runTodoAction, deleteTodo] at hrun
    rw [← Option.some.inj hrun]
    exact List.Nodup.sublist ((List.filter_sublist _).map Todo.id) hids

/-- C4: in a state whose local todo collection holds exactly the remote
`todos` records of the current owner (and whose remote document ids are
unique, as store-assigned ids are), every completed `addTodo` (blank, create
or edit), `toggleTodo` and `deleteTodo` leads to a state whose local
collection again holds exactly the owner's remote records; the owner is the
same. -/
theorem todos_stay_in_sync (format : Date → String) (a : TodoAction) (s s' : State)
    (hids : todoIdsUnique s.remote) (hsync : todosInSync s)
    (hrun : runTodoAction format a s = some s') :
    todosInSync s' ∧ s'.uid = s.uid := by
  cases a with
  | add now newId =>
    simp only [runTodoAction, addTodo] at hrun
    by_cases hb : trim s.todoInput = ""
    · rw [if_pos hb] at hrun
      rw [← Option.some.inj hrun]
      exact ⟨hsync, rfl⟩
    · rw [if_neg hb] at hrun
      cases he : s.editingTodoId with
      | none =>
        rw [he] at hrun
        simp only at hrun
        rw [← Option.some.inj hrun]
        refine ⟨?_, rfl⟩
        unfold todosInSync at *
        simp only [addDoc, List.filter_append]
        simp only [List.filter_cons, decide_True, if_true, List.filter_nil]
        exact hsync.append_right _
      | some e =>
        rw [he] at hrun
        simp only at hrun
        cases hu : updateDoc Todo.id s.remote.todos e
            (fun d => { d with text := s.todoInput }) with
        | none => rw [hu] at hrun; exact Option.noConfusion hrun
        | some docs =>
          rw [hu] at hrun
          obtain ⟨hdocs, _⟩ := updateDoc_eq_some _ _ _ _ _ hu
          rw [← Option.some.inj hrun, hdocs]
          refine ⟨?_, rfl⟩
          have hf : ∀ d : Todo,
              ((fun d : Todo => if d.id = e then { d with text := s.todoInput } else d) d).userId
                = d.userId := by
            intro d
            by_cases h : d.id = e <;> simp [h]
          have := sync_of_update s _ (s.remote.writes + 1) hf hsync
          unfold todosInSync at *
          exact this
  | toggle i =>
    simp only [runTodoAction] at hrun
    obtain ⟨t0, hf0, _, rfl⟩ := toggleTodo_eq_some i s s' hrun
    refine ⟨?_, rfl⟩
    have hnodup := local_ids_unique s hids hsync
    have ht0 : t0 ∈ s.todos := List.mem_of_find?_eq_some hf0
    have ht0i : t0.id = i := by
      have := List.find?_some hf0
      simpa using this
    have hlocal : s.todos.map (fun todo : Todo =>
          if todo.id = i then { todo with completed := !todo.completed } else todo) =
        s.todos.map (fun d : Todo =>
          if d.id = i then { d with completed := !t0.completed } else d) := by
      apply List.map_congr_left
      intro x hx
      by_cases h : x.id = i
      · have hxt : x = t0 :=
          List.inj_on_of_nodup_map hnodup hx ht0 (h.trans ht0i.symm)
        rw [hxt]
      · simp [h]
    have hf : ∀ d : Todo,
        ((fun d : Todo => if d.id = i then { d with completed := !t0.completed } else d) d).userId
          = d.userId := by
      intro d
      by_cases h : d.id = i <;> simp [h]
    have := sync_of_update s _ (s.remote.writes + 1) hf hsync
    unfold todosInSync at *
    simp only at this ⊢
    rw [hlocal]
    exact this
  | delete i =>
    simp only [runTodoAction, deleteTodo] at hrun
    rw [← Option.some.inj hrun]
    refine ⟨?_, rfl⟩
    unfold todosInSync at *
    simp only [deleteDoc]
    rw [List.filter_comm]
    exact hsync.filter _

/-- Witness for C4: toggling todo `a` in `sampleState`. -/
theorem todos_stay_in_sync_witness :
    todosInSync
        { sampleState with
          remote := { sampleStore with
            todos :=
              [ ⟨"a", "Buy milk", true, "2024-01-01", "u1"⟩,
                ⟨"b", "Call Bob", true, "2024-01-02", "u1"⟩,
                ⟨"c", "Pay rent", false, "2024-01-01", "u2"⟩ ]
            writes := 1 }
          todos :=
            [ ⟨"a", "Buy milk", true, "2024-01-01", "u1"⟩,
              ⟨"b", "Call Bob", true, "2024-01-02", "u1"⟩ ] } ∧
      "u1" = sampleState.uid :=
  todos_stay_in_sync formatDay (.toggle "a") sampleState _ (by decide) (by decide)
    (by decide)

/-! ## C2, C3: saving a journal entry -/

theorem addJournalEntry_existing (format : Date → String) (newId : String) (s : State)
    (d0 : JournalDoc) (rest : List JournalDoc) (hb : trim s.journalInput ≠ "")
    (hq : getDocs s.remote.journal (fun d => d.userId = s.uid ∧ d.date = format s.date) =
      d0 :: rest) :
    addJournalEntry format newId s = some { s with
      remote := { s.remote with
        journal := s.remote.journal.map (fun d =>
          if d.id = d0.id then { d with content := s.journalInput } else d)
        writes := s.remote.writes + 1 }
      journalEntries := setProp s.journalEntries (format s.date) s.journalInput
      journalInput := "" } := by
  have hmem : d0 ∈ s.remote.journal := by
    have : d0 ∈ getDocs s.remote.journal
        (fun d => d.userId = s.uid ∧ d.date = format s.date) := by
      rw [hq]
      exact List.mem_cons_self _ _
    exact (List.mem_filter.mp this).1
  unfold addJournalEntry
  rw [if_neg hb]
  simp only [hq]
  rw [updateDoc_of_mem JournalDoc.id _ _ _ ⟨d0, hmem, rfl⟩]

theorem addJournalEntry_new (format : Date → String) (newId : String) (s : State)
    (hb : trim s.journalInput ≠ "")
    (hq : getDocs s.remote.journal (fun d => d.userId = s.uid ∧ d.date = format s.date) =
      []) :
    addJournalEntry format newId s = some { s with
      remote := { s.remote with
        journal := s.remote.journal ++
          [{ id := newId, userId := s.uid, date := format s.date, content := s.journalInput }]
        writes := s.remote.writes + 1 }
      journalEntries := setProp s.journalEntries (format s.date) s.journalInput
      journalInput := "" } := by
  unfold addJournalEntry
  rw [if_neg hb]
  simp only [hq]
  rfl

theorem filter_journal_owner_map (uid : String) (f : JournalDoc → JournalDoc)
    (l : List JournalDoc) (hf : ∀ d : JournalDoc, (f d).userId = d.userId) :
    (l.map f).filter (fun d => d.userId = uid) =
      (l.filter (fun d => d.userId = uid)).map f := by
  induction l with
  | nil => rfl
  | cons a l ih =>
    by_cases h : a.userId = uid
    · simp only [List.map_cons, List.filter_cons, hf, h, decide_True, if_true, ih]
    · simp only [List.map_cons, List.filter_cons, hf, h, decide_False, ih]
      simp

/-- C3: `addJournalEntry` preserves the invariant that no two journal records
share the same (owner id, date-key) pair: from every state whose store
satisfies it, for every owner, selected date and input content (blank or
not), the handler completes and the store it leaves satisfies it again. -/
theorem addJournalEntry_preserves_unique (format : Date → String) (newId : String)
    (s : State) (hinv : journalKeysUnique s.remote) :
    ∃ s' : State, addJournalEntry format newId s = some s' ∧
      journalKeysUnique s'.remote := by
  by_cases hb : trim s.journalInput = ""
  · refine ⟨s, ?_, hinv⟩
    unfold addJournalEntry
    rw [if_pos hb]
  · cases hq : getDocs s.remote.journal
        (fun d => d.userId = s.uid ∧ d.date = format s.date) with
    | nil =>
      refine ⟨_, addJournalEntry_new format newId s hb hq, ?_⟩
      unfold journalKeysUnique at *
      simp only
      rw [List.pairwise_append]
      refine ⟨hinv, List.pairwise_singleton _ _, ?_⟩
      intro a ha b hb'
      rw [List.mem_singleton] at hb'
      subst hb'
      intro hab
      have : a ∈ getDocs s.remote.journal
          (fun d => d.userId = s.uid ∧ d.date = format s.date) := by
        unfold getDocs
        rw [List.mem_filter]
        exact ⟨ha, by simpa using hab⟩
      rw [hq] at this
      exact List.not_mem_nil _ this
    | cons d0 rest =>
      refine ⟨_, addJournalEntry_existing format newId s d0 rest hb hq, ?_⟩
      unfold journalKeysUnique at *
      simp only
      rw [List.pairwise_map]
      refine hinv.imp ?_
      intro a b hab
      by_cases ha : a.id = d0.id <;> by_cases hb' : b.id = d0.id <;> simpa [ha, hb'] using hab

/-- Witness for C3: saving over the existing entry of `sampleState`. -/
theorem addJournalEntry_preserves_unique_witness :
    ∃ s' : State,
      addJournalEntry formatDay "j2" (setJournalInput "Great day" sampleState) = some s' ∧
      journalKeysUnique s'.remote :=
  addJournalEntry_preserves_unique formatDay "j2" (setJournalInput "Great day" sampleState)
    (by decide)

/-- C2: with a non-blank input `c`, `addJournalEntry` completes.  If the
store holds a record for (owner, `d`), the number of the owner's records is
unchanged and such a record now carries content `c` with its id, owner and
date kept (when the records have unique (owner, date) pairs, every record for
(owner, `d`) carries `c`).  If the store holds none, the store is the old one
followed by one new record with the owner, date `d` and content `c`, and the
number of the owner's records grows by exactly one.  Starting from a store
without journal records, a second save `c2` for the same date leaves exactly
one record, with content `c2`, and loading yields exactly that one entry. -/
theorem addJournalEntry_upsert (format : Date → String) (newId : String) (s : State)
    (hinput : ∃ c ∈ s.journalInput.data, isWhiteSpace c = false) :
    ∃ s' : State, addJournalEntry format newId s = some s' ∧
      ((∃ d ∈ s.remote.journal, d.userId = s.uid ∧ d.date = format s.date) →
        journalCount s'.remote s.uid = journalCount s.remote s.uid ∧
        s'.remote.journal.length = s.remote.journal.length ∧
        (∃ d0 ∈ s.remote.journal, d0.userId = s.uid ∧ d0.date = format s.date ∧
          { d0 with content := s.journalInput } ∈ s'.remote.journal) ∧
        (journalKeysUnique s.remote →
          ∀ d ∈ s'.remote.journal, d.userId = s.uid → d.date = format s.date →
            d.content = s.journalInput)) ∧
      ((¬ ∃ d ∈ s.remote.journal, d.userId = s.uid ∧ d.date = format s.date) →
        s'.remote.journal = s.remote.journal ++
          [{ id := newId, userId := s.uid, date := format s.date,
             content := s.journalInput }] ∧
        journalCount s'.remote s.uid = journalCount s.remote s.uid + 1) ∧
      (s.remote.journal = [] →
        ∀ (c2 id2 : String), (∃ c ∈ c2.data, isWhiteSpace c = false) →
          ∃ s'' : State, addJournalEntry format id2 (setJournalInput c2 s') = some s'' ∧
            s''.remote.journal =
              [{ id := newId, userId := s.uid, date := format s.date, content := c2 }] ∧
            (loadJournalEntries s'').journalEntries = [(format s.date, c2)]) := by
  have hb := trim_ne_empty_of_exists s.journalInput hinput
  cases hq : getDocs s.remote.journal
      (fun d => d.userId = s.uid ∧ d.date = format s.date) with
  | nil =>
    have hnone : ¬ ∃ d ∈ s.remote.journal, d.userId = s.uid ∧ d.date = format s.date := by
      rintro ⟨d, hd, hdk⟩
      have : d ∈ getDocs s.remote.journal
          (fun d => d.userId = s.uid ∧ d.date = format s.date) := by
        unfold getDocs
        rw [List.mem_filter]
        exact ⟨hd, by simpa using hdk⟩
      rw [hq] at this
      exact List.not_mem_nil _ this
    refine ⟨_, addJournalEntry_new format newId s hb hq, ?_, ?_, ?_⟩
    · intro hex
      exact absurd hex hnone
    · intro _
      refine ⟨rfl, ?_⟩
      simp [journalCount, getDocs, List.filter_append]
    · intro hempty c2 id2 hc2
      have hb2 := trim_ne_empty_of_exists c2 hc2
      refine ⟨_, addJournalEntry_existing format id2 _
        { id := newId, userId := s.uid, date := format s.date, content := s.journalInput }
        [] hb2 ?_, ?_, ?_⟩
      · simp [setJournalInput, getDocs, hempty]
      · simp [setJournalInput, hempty]
      · simp [setJournalInput, hempty, loadJournalEntries, getDocs, setProp]
  | cons d0 rest =>
    have hd0 : d0 ∈ getDocs s.remote.journal
        (fun d => d.userId = s.uid ∧ d.date = format s.date) := by
      rw [hq]
      exact List.mem_cons_self _ _
    unfold getDocs at hd0
    rw [List.mem_filter] at hd0
    obtain ⟨hd0mem, hd0key⟩ := hd0
    have hd0key : d0.userId = s.uid ∧ d0.date = format s.date := by simpa using hd0key
    have hf : ∀ d : JournalDoc,
        ((fun d : JournalDoc =>
            if d.id = d0.id then { d with content := s.journalInput } else d) d).userId
          = d.userId := by
      intro d
      by_cases h : d.id = d0.id <;> simp [h]
    refine ⟨_, addJournalEntry_existing format newId s d0 rest hb hq, ?_, ?_, ?_⟩
    · intro _
      refine ⟨?_, by simp, ⟨d0, hd0mem, hd0key.1, hd0key.2, ?_⟩, ?_⟩
      · simp only [journalCount, getDocs]
        rw [filter_journal_owner_map s.uid _ _ hf, List.length_map]
      · simp only
        refine List.mem_map.mpr ⟨d0, hd0mem, ?_⟩
        simp
      · intro hinv d hd hdu hdd
        simp only at hd
        obtain ⟨x, hx, rfl⟩ := List.mem_map.mp hd
        have hxu : x.userId = s.uid := by
          by_cases h : x.id = d0.id <;> simpa [h] using hdu
        have hxd : x.date = format s.date := by
          by_cases h : x.id = d0.id <;> simpa [h] using hdd
        have hxeq : x = d0 := by
          by_contra hne
          unfold journalKeysUnique at hinv
          have hsym : Symmetric (fun a b : JournalDoc =>
              ¬ (a.userId = b.userId ∧ a.date = b.date)) := by
            intro a b hab hba
            exact hab ⟨hba.1.symm, hba.2.symm⟩
          exact hinv.forall hsym hx hd0mem hne
            ⟨hxu.trans hd0key.1.symm, hxd.trans hd0key.2.symm⟩
        subst hxeq
        simp
    · intro hnone
      exact absurd ⟨d0, hd0mem, hd0key⟩ hnone
    · intro hempty
      rw [hempty] at hd0mem
      exact absurd hd0mem (List.not_mem_nil _)

/-- Witness for C2: from the empty store, "Good day" and then "Great day" are
saved for 2024-01-01; one record is left, with content "Great day". -/
theorem addJournalEntry_upsert_witness :
    ∃ s1 s2 : State,
      addJournalEntry formatDay "j1" (setJournalInput "Good day" emptyState) = some s1 ∧
      addJournalEntry formatDay "j2" (setJournalInput "Great day" s1) = some s2 ∧
      s1.remote.journal = [⟨"j1", "u1", "2024-01-01", "Good day"⟩] ∧
      s2.remote.journal = [⟨"j1", "u1", "2024-01-01", "Great day"⟩] ∧
      (loadJournalEntries s2).journalEntries = [("2024-01-01", "Great day")] := by
  obtain ⟨s1, h1, _, hnew, hscenario⟩ :=
    addJournalEntry_upsert formatDay "j1" (setJournalInput "Good day" emptyState) (by decide)
  obtain ⟨s2, h2, hstore, hload⟩ := hscenario rfl "Great day" "j2" (by decide)
  exact ⟨s1, s2, h1, h2, (hnew (by decide)).1, hstore, hload⟩

/-! ## C5: calendar decoration -/

theorem getProp_isSome_iff (obj : List (String × String)) (key : String) :
    (∃ c, getProp obj key = some c) ↔ hasKey obj key := by
  unfold getProp hasKey
  cases hf : obj.find? (fun p => p.1 = key) with
  | none =>
    constructor
    · rintro ⟨c, hc⟩
      exact Option.noConfusion hc
    · rintro ⟨p, hp, hk⟩
      have := List.find?_eq_none.mp hf p hp
      simp [hk] at this
  | some p =>
    constructor
    · intro _
      refine ⟨p, List.mem_of_find?_eq_some hf, ?_⟩
      simpa using List.find?_some hf
    · intro _
      exact ⟨p.2, rfl⟩

/-- C5, as the code has it: the class string of a day cell with date-key `D`
contains `has-journal` iff the local journal object has key `D` with a
non-empty content, and contains `has-todos` iff at least one local todo has
date `D`; each decoration depends on its own collection only. -/
theorem tileClassName_decorations (format : Date → String) (s : State) (date : Date) :
    (containsClass (tileClassName format s date) "has-journal" ↔
      (hasKey s.journalEntries (format date) ∧
        getProp s.journalEntries (format date) ≠ some "")) ∧
    (containsClass (tileClassName format s date) "has-todos" ↔
      ∃ T ∈ s.todos, T.date = format date) := by
  have hj : truthy (getProp s.journalEntries (format date)) = true ↔
      (hasKey s.journalEntries (format date) ∧
        getProp s.journalEntries (format date) ≠ some "") := by
    rw [← getProp_isSome_iff]
    cases hg : getProp s.journalEntries (format date) with
    | none => simp [truthy]
    | some c => simp [truthy]
  have ht : (s.todos.any fun todo => decide (todo.date = format date)) = true ↔
      ∃ T ∈ s.todos, T.date = format date := by simp
  rw [← hj, ← ht]
  unfold tileClassName
  simp only
  cases truthy (getProp s.journalEntries (format date)) <;>
    cases (s.todos.any fun todo => decide (todo.date = format date)) <;>
    simp only [Bool.and_self, Bool.and_true, Bool.and_false, Bool.false_eq_true, if_true,
      if_false, iff_true, iff_false, not_false_eq_true, and_self, and_true, true_and] <;>
    decide

/-- C5 as stated fails: after loading `emptyContentStore` the journal object
has the key `2024-01-01`, yet the class string of that day cell does not
contain `has-journal`. -/
theorem tileClassName_empty_content :
    ¬ (containsClass (tileClassName formatDay emptyContentState ⟨2024, 1, 1⟩) "has-journal" ↔
        hasKey emptyContentState.journalEntries (formatDay ⟨2024, 1, 1⟩)) := by
  decide

end BentoPlanner
